import Mathlib

/-!
# Verification of the Cursor-Tools file-mutation and backup core

A shallow embedding, in Lean 4, of the core routines of the Cursor-Tools
repository:

* `FileManager.safe_file_modify` and `modify_workbench_js` (src/utils.py,
  src/pro_features.py, src/reset_machine_id.py): the patch-and-backup file
  mutation routine;
* `BackupManager.create_backup`, `restore_backup`, `cleanup_old_backups`
  (src/utils.py): manifest-based snapshots;
* `RegistryManager.modify_device_ids`, `create_backup`, `restore_backup`
  (src/registry_manager.py): the registry device-id write sequence;
* `CursorToolsVersionManager.compare_versions` (src/version_manager.py) and
  `AutoUpdateManager._is_newer_version` (src/auto_update_manager.py).

Modelling conventions:

* Paths are sequences of path components (`PyPath := List String`);
  `os.path.join d n` is `d ++ [n]` and `os.path.basename` is the last
  component.  File systems and the registry are association lists keyed by
  path; lookups return the first match.
* Python text (`str`) is a list of Unicode code points (`List Nat`); file
  content on disk is a list of bytes (`List Nat`).  `open(..., "r",
  encoding="utf-8", errors="ignore")` is modelled by `decodeUtf8Ignore`,
  writing text back is `encodeUtf8`.
* Exceptions are modelled with `Except Unit` where the source can raise
  depending on its inputs (e.g. `re.sub` with a bad replacement template);
  OS primitives (copy, rename, chmod) are modelled as succeeding, since the
  source gives them no failure handling beyond the enclosing `except`.
-/

/-! ## Association-list stores (file systems, registries) -/


/-- First-match lookup in an association list (a path-keyed store). -/
def alGet {κ α : Type} [DecidableEq κ] : List (κ × α) → κ → Option α
  | [], _ => none
  | (q, v) :: rest, p => if p = q then some v else alGet rest p

/-- Update-or-append in an association list (create or overwrite a file). -/
def alSet {κ α : Type} [DecidableEq κ] : List (κ × α) → κ → α → List (κ × α)
  | [], p, v => [(p, v)]
  | (q, w) :: rest, p, v =>
    if p = q then (p, v) :: rest else (q, w) :: alSet rest p v

/-- Remove every binding of a key (delete a file). -/
def alRemove {κ α : Type} [DecidableEq κ] : List (κ × α) → κ → List (κ × α)
  | [], _ => []
  | (q, w) :: rest, p =>
    if p = q then alRemove rest p else (q, w) :: alRemove rest p

/-! ## Python `int()` and version comparison

Models `CursorToolsVersionManager.compare_versions` (src/version_manager.py,
lines 142-162) and `AutoUpdateManager._is_newer_version`
(src/auto_update_manager.py, lines 180-199).  Both call
`tuple(map(int, v.split(".")))` and catch `(ValueError, AttributeError)`.
-/

/-- Characters stripped by Python `int(str)` before parsing. -/
def isPySpace (c : Char) : Bool :=
  c = ' ' || c = '\t' || c = '\n' || c = '\r' || c = '\x0b' || c = '\x0c'

/-- Digit run with optional single underscores between digits, as accepted
by CPython `int()` (ASCII digits; a leading digit was already checked by
the caller). Returns the digit values in order, or `none` on a malformed
run (trailing or doubled underscore, or a non-digit character). -/
def pyDigitRun : List Char → Option (List Nat)
  | [] => some []
  | c :: cs =>
    if c.isDigit then (pyDigitRun cs).map (fun ds => (c.toNat - 48) :: ds)
    else if c = '_' then
      match cs with
      | [] => none
      | c2 :: _ => if c2.isDigit then pyDigitRun cs else none
    else none

def digitsToNat (ds : List Nat) : Nat := ds.foldl (fun a d => a * 10 + d) 0

/-- CPython `int(s)` on an ASCII string: optional surrounding whitespace,
optional sign, then a digit run. `none` models a `ValueError`. -/
def pyIntParse (s : List Char) : Option Int :=
  let t := ((s.dropWhile isPySpace).reverse.dropWhile isPySpace).reverse
  match t with
  | [] => none
  | c :: cs =>
    let signed : Int × List Char :=
      if c = '-' then (-1, cs) else if c = '+' then (1, cs) else (1, c :: cs)
    match signed.2 with
    | [] => none
    | d :: _ =>
      if d.isDigit then
        (pyDigitRun signed.2).map (fun ds => signed.1 * Int.ofNat (digitsToNat ds))
      else none

/-- Python `version.split(".")`: dot-separated segments, keeping empty
segments (so `"".split(".") == [""]`). -/
def splitDot : List Char → List (List Char)
  | [] => [[]]
  | c :: cs =>
    if c = '.' then [] :: splitDot cs
    else
      match splitDot cs with
      | [] => [[c]]
      | seg :: rest => (c :: seg) :: rest

/-- `tuple(map(int, version.split(".")))`; `none` models the `ValueError`
raised by any malformed segment. -/
def parseVersionParts (version : String) : Option (List Int) :=
  (splitDot version.data).mapM pyIntParse

/-- Python tuple `<` on integer tuples: lexicographic, a strict prefix is
smaller. -/
def intListLt : List Int → List Int → Bool
  | [], [] => false
  | [], _ :: _ => true
  | _ :: _, [] => false
  | a :: as, b :: bs => if a < b then true else if b < a then false else intListLt as bs

/-- `CursorToolsVersionManager.compare_versions`: -1 / 0 / 1, and 0 when
either version fails to parse (the `except (ValueError, AttributeError)`
branch). -/
def compare_versions (version1 version2 : String) : Int :=
  match parseVersionParts version1, parseVersionParts version2 with
  | some v1, some v2 =>
    if intListLt v1 v2 then -1 else if intListLt v2 v1 then 1 else 0
  | _, _ => 0

/-- `AutoUpdateManager._is_newer_version`: `latest_parts > current_parts`,
`False` when parsing fails. -/
def is_newer_version (latest current : String) : Bool :=
  match parseVersionParts latest, parseVersionParts current with
  | some l, some c => intListLt c l
  | _, _ => false

/-! ## Python text: `str.replace` and the UTF-8 codec

Python text is a list of Unicode code points.  `safe_file_modify` and
`modify_workbench_js` read the target with
`open(..., encoding="utf-8", errors="ignore")` and write through a text-mode
temporary file; literal rules are applied with `content.replace(old, new)`.
-/

/-- Python `s.replace(old, new)`: replace every non-overlapping occurrence,
left to right.  With `old == ""`, Python inserts `new` at every position
(`"abc".replace("", "-") == "-a-b-c-"`). -/
def listReplace (s old new : List Nat) : List Nat :=
  match s with
  | [] => if old = [] then new else []
  | c :: cs =>
    if hold : old = [] then new ++ c :: listReplace cs old new
    else
      if old.isPrefixOf (c :: cs) then
        new ++ listReplace (cs.drop (old.length - 1)) old new
      else c :: listReplace cs old new
termination_by s.length
decreasing_by
  · simp
  · have : old.length ≠ 0 := fun h => hold (List.eq_nil_of_length_eq_zero h)
    simp only [List.length_drop, List.length_cons]
    omega
  · simp

/-- A UTF-8 continuation byte. -/
def contOk (b : Nat) : Bool := 0x80 ≤ b && b ≤ 0xBF

/-- Admissible second byte of a three-byte sequence led by `b0`
(excludes overlong encodings and surrogates, as CPython's decoder does). -/
def utf8Second3 (b0 b1 : Nat) : Bool :=
  if b0 = 0xE0 then 0xA0 ≤ b1 && b1 ≤ 0xBF
  else if b0 = 0xED then 0x80 ≤ b1 && b1 ≤ 0x9F
  else contOk b1

/-- Admissible second byte of a four-byte sequence led by `b0`
(excludes overlong encodings and code points above U+10FFFF). -/
def utf8Second4 (b0 b1 : Nat) : Bool :=
  if b0 = 0xF0 then 0x90 ≤ b1 && b1 ≤ 0xBF
  else if b0 = 0xF4 then 0x80 ≤ b1 && b1 ≤ 0x8F
  else contOk b1

/-- CPython's UTF-8 decoder with `errors="ignore"`: well-formed sequences
decode to their code point; the maximal subpart of an ill-formed sequence is
dropped (not replaced) and decoding continues; a truncated final sequence is
likewise dropped.  Decoding never fails. -/
def decodeUtf8Ignore : List Nat → List Nat
  | [] => []
  | b0 :: rest =>
    if b0 < 0x80 then b0 :: decodeUtf8Ignore rest
    else if b0 < 0xC2 then decodeUtf8Ignore rest
    else if b0 ≤ 0xDF then
      match rest with
      | [] => []
      | b1 :: rest2 =>
        if contOk b1 then
          ((b0 - 0xC0) * 64 + (b1 - 0x80)) :: decodeUtf8Ignore rest2
        else decodeUtf8Ignore (b1 :: rest2)
    else if b0 ≤ 0xEF then
      match rest with
      | [] => []
      | b1 :: rest2 =>
        if utf8Second3 b0 b1 then
          match rest2 with
          | [] => []
          | b2 :: rest3 =>
            if contOk b2 then
              ((b0 - 0xE0) * 4096 + (b1 - 0x80) * 64 + (b2 - 0x80)) ::
                decodeUtf8Ignore rest3
            else decodeUtf8Ignore (b2 :: rest3)
        else decodeUtf8Ignore (b1 :: rest2)
    else if b0 ≤ 0xF4 then
      match rest with
      | [] => []
      | b1 :: rest2 =>
        if utf8Second4 b0 b1 then
          match rest2 with
          | [] => []
          | b2 :: rest3 =>
            if contOk b2 then
              match rest3 with
              | [] => []
              | b3 :: rest4 =>
                if contOk b3 then
                  ((b0 - 0xF0) * 262144 + (b1 - 0x80) * 4096 +
                    (b2 - 0x80) * 64 + (b3 - 0x80)) :: decodeUtf8Ignore rest4
                else decodeUtf8Ignore (b3 :: rest4)
            else decodeUtf8Ignore (b2 :: rest3)
        else decodeUtf8Ignore (b1 :: rest2)
    else decodeUtf8Ignore rest

/-- UTF-8 encoding of one code point (code points produced by decoding or
taken from the static rule tables are valid Unicode scalar values). -/
def encodeUtf8Cp (cp : Nat) : List Nat :=
  if cp < 0x80 then [cp]
  else if cp < 0x800 then [0xC0 + cp / 64, 0x80 + cp % 64]
  else if cp < 0x10000 then
    [0xE0 + cp / 4096, 0x80 + (cp / 64) % 64, 0x80 + cp % 64]
  else
    [0xF0 + cp / 262144, 0x80 + (cp / 4096) % 64, 0x80 + (cp / 64) % 64,
      0x80 + cp % 64]

/-- UTF-8 encoding of a text (what the text-mode temporary file holds on
disk after `tmp_file.write(content)`). -/
def encodeUtf8 (text : List Nat) : List Nat :=
  (text.map encodeUtf8Cp).flatten

/-! ## The mutation routine: `FileManager.safe_file_modify`

src/utils.py lines 230-291.  A path is a list of components; a file carries
its raw bytes, its permission bits (`st_mode`, restored by the final
`os.chmod`) and whether `os.access(file_path, os.W_OK)` holds.  The named
temporary file lives in the system temporary directory, outside the
modelled tree, so a leaked or cleaned-up temporary never shows up here.
-/

abbrev PyPath := List String

/-- `os.path.basename` (the last path component). -/
def pbasename (p : PyPath) : String := p.getLastD ""

structure MFile where
  bytes : List Nat
  mode : Nat
  writable : Bool
  deriving DecidableEq, Repr

/-- The file-system tree seen by `safe_file_modify`. -/
abbrev FileSys := List (PyPath × MFile)

/-- One entry of the `replacements` dict: a `str` key is applied with
`content.replace(old, new)`; any other key is fed to `re.sub`, modelled as
an opaque text transform that may raise (e.g. an invalid group reference in
the replacement template). -/
inductive PatchRule where
  | lit (old new : List Nat)
  | sub (f : List Nat → Except Unit (List Nat))

def applyRule (r : PatchRule) (content : List Nat) : Except Unit (List Nat) :=
  match r with
  | .lit old new => .ok (listReplace content old new)
  | .sub f => f content

/-- The `for old_pattern, new_pattern in replacements.items()` loop: rules
apply in table order, each seeing the previous rule's output; the first
raising rule aborts the loop. -/
def applyRules : List PatchRule → List Nat → Except Unit (List Nat)
  | [], content => .ok content
  | r :: rs, content =>
    match applyRule r content with
    | .ok content2 => applyRules rs content2
    | .error e => .error e

/-- `f"{filename}.{suffix}.backup.{timestamp}"`, or without the suffix part
when `backup_suffix` is empty. -/
def backupFileName (filename suffix timestamp : String) : String :=
  if suffix = "" then filename ++ ".backup." ++ timestamp
  else filename ++ "." ++ suffix ++ ".backup." ++ timestamp

/-- Observable ordering events of one mutation run. -/
inductive MutEv where
  | backupCreated
  | tmpWritten
  deriving DecidableEq, Repr

/-- `FileManager.safe_file_modify(file_path, replacements, backup_dir,
backup_suffix)` at timestamp `ts`.  Returns the Python return value, the
resulting tree, and the ordered trace of backup/temp-write events.

Steps, as in the source: existence and writability check; `os.stat`;
backup file name; `os.makedirs(backup_dir)`; `shutil.copy2` of the original
into the backup path (content and permission bits); read with
`errors="ignore"`; apply the replacement table; write the temporary file;
`os.remove` the original; `shutil.move` the temporary into place;
`os.chmod` back to the original mode.  Any exception is caught and turned
into `False` after a best-effort unlink of the temporary file. -/
def safeFileModify (fs : FileSys) (filePath : PyPath) (replacements : List PatchRule)
    (backupDir : PyPath) (backupSuffix : String) (ts : String) :
    Bool × FileSys × List MutEv :=
  match alGet fs filePath with
  | none => (false, fs, [])
  | some file =>
    if !file.writable then (false, fs, [])
    else
      let originalMode := file.mode
      let backupPath := backupDir ++ [backupFileName (pbasename filePath) backupSuffix ts]
      let fs1 := alSet fs backupPath file
      let content := decodeUtf8Ignore file.bytes
      match applyRules replacements content with
      | .error _ => (false, fs1, [.backupCreated])
      | .ok newContent =>
        let fs2 := alSet (alRemove fs1 filePath) filePath
          { bytes := encodeUtf8 newContent, mode := originalMode,
            writable := file.writable }
        (true, fs2, [.backupCreated, .tmpWritten])

/-- `modify_workbench_js(file_path)` (src/reset_machine_id.py lines 160-206,
duplicated with a different backup file name in src/pro_features.py lines
61-108).  The replacement table is the static literal table
`config.reset_machine_id_patterns`, passed here as `patterns`.  Unlike
`safe_file_modify`, the backup `shutil.copy2` runs only after the transform
and the temporary-file write, right before the swap; a missing target makes
the initial `os.stat` raise, caught into `False` with no on-disk change. -/
def modifyWorkbenchJs (fs : FileSys) (filePath : PyPath)
    (patterns : List (List Nat × List Nat)) (backupDir : PyPath) (ts : String) :
    Bool × FileSys × List MutEv :=
  match alGet fs filePath with
  | none => (false, fs, [])
  | some file =>
    let originalMode := file.mode
    let content := decodeUtf8Ignore file.bytes
    let newContent :=
      patterns.foldl (fun acc pr => listReplace acc pr.1 pr.2) content
    let backupPath :=
      backupDir ++ ["workbench.desktop.main.js.backup." ++ ts]
    let fs1 := alSet fs backupPath file
    let fs2 := alSet (alRemove fs1 filePath) filePath
      { bytes := encodeUtf8 newContent, mode := originalMode,
        writable := file.writable }
    (true, fs2, [.tmpWritten, .backupCreated])

/-! ## `BackupManager` (src/utils.py lines 361-568)

The backup world is an association list from paths to items.  A manifest
file (`backup_metadata.json`) is a JSON file; its parse status is carried
in the item: `manifestFile none` is a file `json.load` raises on,
`manifestFile (some m)` loads as the manifest `m`.  Within a loaded
manifest, `source_path`/`backup_path` are `none` when the key is missing
(`backup_info.get(...)` returns `None`); `created_date` is `none` when
missing, `some none` when `datetime.fromisoformat` raises on it (or the
datetime comparison fails), and `some (some t)` when it parses to the time
`t`, measured in seconds.  Metadata (`file_size`, the free-form `metadata`
dict) plays no role in any claim and is not carried. -/

/-- The claim-relevant fields of a loaded `backup_metadata.json`. -/
structure MJson where
  source_path : Option PyPath
  backup_path : Option PyPath
  backup_type : String
  created_date : Option (Option Int)
  deriving DecidableEq, Repr

/-- One directory entry: a plain file with bytes, a JSON manifest file, or
a directory. -/
inductive Item where
  | file (bytes : List Nat)
  | manifestFile (parsed : Option MJson)
  | dir
  deriving DecidableEq, Repr

abbrev World := List (PyPath × Item)

/-- `os.path.isfile`: the path names a regular file. -/
def isFileAt (w : World) (p : PyPath) : Bool :=
  match alGet w p with
  | some (.file _) => true
  | some (.manifestFile _) => true
  | _ => false

/-- `os.path.isdir`. -/
def isDirAt (w : World) (p : PyPath) : Bool :=
  match alGet w p with
  | some .dir => true
  | _ => false

/-- `shutil.copy2(src, dst)`: overwrite `dst`, or copy *into* `dst` when
`dst` is an existing directory. -/
def copy2 (w : World) (src dst : PyPath) : World :=
  match alGet w src with
  | none => w
  | some it =>
    match alGet w dst with
    | some .dir => alSet w (dst ++ [pbasename src]) it
    | _ => alSet w dst it

/-- `shutil.rmtree(d)`: drop `d` and every path below it. -/
def rmtree (w : World) (d : PyPath) : World :=
  w.filter (fun e => !(d.isPrefixOf e.1))

/-- `shutil.copytree(src, dst)`: a copy of every entry at or below `src`,
re-rooted at `dst` (the model appends the copies; call sites guarantee the
destination is fresh, where Python would otherwise raise). -/
def copytree (w : World) (src dst : PyPath) : World :=
  w ++ w.filterMap (fun e =>
    if src.isPrefixOf e.1 then some (dst ++ e.1.drop src.length, e.2) else none)

/-- `BackupManager.create_backup(source_path, backup_type, metadata)` at
timestamp string `nowStr` / time `nowTime` with backup root `base`
(src/utils.py lines 375-422): `None` when the source does not exist;
otherwise make the per-backup folder `{type}_{basename}_{timestamp}`, copy
the source file (or tree) into it, write the manifest, return the id. -/
def create_backup (w : World) (base : PyPath) (nowStr : String) (nowTime : Int)
    (sourcePath : PyPath) (backupType : String) : Option String × World :=
  if (alGet w sourcePath).isNone then (none, w)
  else
    let sourceName := pbasename sourcePath
    let backupId := backupType ++ "_" ++ sourceName ++ "_" ++ nowStr
    let backupDir := base ++ [backupId]
    let w1 := alSet w backupDir Item.dir
    let backupFilePath := backupDir ++ [sourceName]
    let w2 :=
      if isFileAt w sourcePath then copy2 w1 sourcePath backupFilePath
      else copytree w1 sourcePath backupFilePath
    let manifest : MJson :=
      { source_path := some sourcePath, backup_path := some backupFilePath,
        backup_type := backupType, created_date := some (some nowTime) }
    let w3 := alSet w2 (backupDir ++ ["backup_metadata.json"])
      (Item.manifestFile (some manifest))
    (some backupId, w3)

/-- `BackupManager.restore_backup(backup_id)` (src/utils.py lines 480-526):
checks the backup folder and manifest exist, loads the manifest, rejects a
missing/empty `source_path`/`backup_path` and a missing backup content
path; snapshots an existing source under type `"pre_restore"`; then copies
the backup content over the source (file to file copy; directory restore
removes the existing source tree first, raising — hence `False` — if the
existing source is a plain file). -/
def restore_backup (w : World) (base : PyPath) (nowStr : String) (nowTime : Int)
    (backupId : String) : Bool × World :=
  let backupDir := base ++ [backupId]
  if (alGet w backupDir).isNone then (false, w)
  else
    match alGet w (backupDir ++ ["backup_metadata.json"]) with
    | some (.manifestFile (some info)) =>
      match info.source_path, info.backup_path with
      | some sourcePath, some backupFilePath =>
        if sourcePath = [] ∨ backupFilePath = [] then (false, w)
        else if (alGet w backupFilePath).isNone then (false, w)
        else
          let w1 :=
            if (alGet w sourcePath).isSome then
              (create_backup w base nowStr nowTime sourcePath "pre_restore").2
            else w
          if isFileAt w1 backupFilePath then
            (true, copy2 w1 backupFilePath sourcePath)
          else
            if (alGet w1 sourcePath).isSome then
              if isFileAt w1 sourcePath then (false, w1)
              else (true, copytree (rmtree w1 sourcePath) backupFilePath sourcePath)
            else (true, copytree w1 backupFilePath sourcePath)
      | _, _ => (false, w)
    | some (.manifestFile none) => (false, w)
    | some _ => (false, w)
    | none => (false, w)

/-- The names `os.listdir(base)` returns: direct children of `base`. -/
def listdirNames (w : World) (base : PyPath) : List String :=
  w.filterMap (fun e =>
    if base.isPrefixOf e.1 ∧ e.1.length = base.length + 1 then
      (e.1.drop base.length).head?
    else none)

/-- The body of the `cleanup_old_backups` loop for one directory entry:
skip non-directories, missing manifests, corrupt manifests, manifests
without a parsable creation date; remove the folder and count it when the
creation date is strictly before the cutoff. -/
def cleanupStep (base : PyPath) (cutoff : Int) (acc : Nat × World)
    (name : String) : Nat × World :=
  let backupDir := base ++ [name]
  if !isDirAt acc.2 backupDir then acc
  else
    match alGet acc.2 (backupDir ++ ["backup_metadata.json"]) with
    | some (.manifestFile (some info)) =>
      match info.created_date with
      | some (some t) =>
        if t < cutoff then (acc.1 + 1, rmtree acc.2 backupDir) else acc
      | _ => acc
    | _ => acc

/-- `BackupManager.cleanup_old_backups(retention_days)` at time `nowTime`
(src/utils.py lines 528-568): `cutoff_date = now - timedelta(days=N)`;
folders are enumerated once up front and processed in order; returns the
number removed. -/
def cleanup_old_backups (w : World) (base : PyPath) (nowTime : Int)
    (retentionDays : Int) : Nat × World :=
  if (alGet w base).isNone then (0, w)
  else
    let cutoff := nowTime - retentionDays * 86400
    (listdirNames w base).foldl (cleanupStep base cutoff) (0, w)

/-- A world for the C3 witness: a backup folder whose loaded manifest names
a backup content file that is absent. -/
def c3World : World :=
  [(["bk"], .dir), (["bk", "m_t_1"], .dir),
   (["bk", "m_t_1", "backup_metadata.json"], .manifestFile (some
     { source_path := some ["d", "t"], backup_path := some ["bk", "m_t_1", "t"],
       backup_type := "m", created_date := some (some 100) })),
   (["d", "t"], .file [9])]

/-- A world for the C6 witness: a file backup of `["d","t"]` whose content
exists, with the current source also present. -/
def c6World : World :=
  [(["bk"], .dir), (["bk", "m_t_1"], .dir),
   (["bk", "m_t_1", "backup_metadata.json"], .manifestFile (some
     { source_path := some ["d", "t"], backup_path := some ["bk", "m_t_1", "t"],
       backup_type := "m", created_date := some (some 100) })),
   (["bk", "m_t_1", "t"], .file [1, 2]),
   (["d", "t"], .file [9])]

/-! ## C4: retention policy of `cleanup_old_backups` -/

/-- The decision `cleanup_old_backups` takes for one directory entry, read
off a fixed world: remove exactly when the entry is a directory whose
manifest loads with a parsable creation date strictly before the cutoff. -/
def cleanupRemoves (w : World) (base : PyPath) (cutoff : Int) (name : String) : Bool :=
  if !isDirAt w (base ++ [name]) then false
  else
    match alGet w (base ++ [name] ++ ["backup_metadata.json"]) with
    | some (.manifestFile (some info)) =>
      match info.created_date with
      | some (some t) => decide (t < cutoff)
      | _ => false
    | _ => false

/-- The creation date a backup folder's manifest parses to, if any. -/
def manifestDate (w : World) (base : PyPath) (name : String) : Option Int :=
  match alGet w (base ++ [name] ++ ["backup_metadata.json"]) with
  | some (.manifestFile (some info)) =>
    match info.created_date with
    | some (some t) => some t
    | _ => none
  | _ => none

/-- A world for the C4 witness (now = 950400 s, retention 7 days, so the
cutoff is 345600 s): one backup 11 days old, one from right now, one with
a corrupt manifest. -/
def c4World : World :=
  [(["bk"], .dir),
   (["bk", "old"], .dir),
   (["bk", "old", "backup_metadata.json"], .manifestFile (some
     { source_path := some ["d", "t"], backup_path := some ["bk", "old", "t"],
       backup_type := "m", created_date := some (some 0) })),
   (["bk", "fresh"], .dir),
   (["bk", "fresh", "backup_metadata.json"], .manifestFile (some
     { source_path := some ["d", "t"], backup_path := some ["bk", "fresh", "t"],
       backup_type := "m", created_date := some (some 950400) })),
   (["bk", "bad"], .dir),
   (["bk", "bad", "backup_metadata.json"], .manifestFile none),
   (["bk", "nodate"], .dir),
   (["bk", "nodate", "backup_metadata.json"], .manifestFile (some
     { source_path := some ["d", "t"], backup_path := some ["bk", "nodate", "t"],
       backup_type := "m", created_date := some none }))]

/-! ## `RegistryManager` (src/registry_manager.py)

The registry is an association list from key paths to keys; a key carries
whether it can be opened for reading and for writing (a `PermissionError`
from `winreg.OpenKey` is a property of the machine state) and its values.
`modify_device_ids` is parametrised by the freshly generated id table
(`generate_new_device_ids` draws random UUIDs); the backup JSON file write
is modelled as the serialized data itself, carried in the outcome. -/

def registryPaths : List String :=
  ["SOFTWARE\\Microsoft\\Cryptography",
   "SYSTEM\\CurrentControlSet\\Control\\IDConfigDB\\Hardware Profiles\\0001",
   "SOFTWARE\\Microsoft\\SQMClient"]

/-- `config.target_values`: the only value names ever read per path. -/
def targetValues (path : String) : List String :=
  if path = "SOFTWARE\\Microsoft\\Cryptography" then ["MachineGuid"]
  else if path = "SYSTEM\\CurrentControlSet\\Control\\IDConfigDB\\Hardware Profiles\\0001"
    then ["HwProfileGuid"]
  else if path = "SOFTWARE\\Microsoft\\SQMClient" then ["MachineId"]
  else []

structure RegKey where
  readOk : Bool
  writeOk : Bool
  values : List (String × String)
  deriving DecidableEq, Repr

abbrev Registry := List (String × RegKey)

/-- `RegistryManager.read_registry_values`: reads only the configured
target values; a missing key or denied access becomes a sentinel entry, a
missing value becomes `"Not found"` — never an exception. -/
def read_registry_values (reg : Registry) : List (String × List (String × String)) :=
  registryPaths.map (fun path =>
    (path,
      match alGet reg path with
      | none => [("Error", "Registry path not found")]
      | some k =>
        if !k.readOk then
          [("Error", "Access denied - Administrator privileges required")]
        else
          (targetValues path).map (fun n =>
            (n, match alGet k.values n with
                | some v => v
                | none => "Not found"))))

/-- `winreg.SetValueEx` for each pair of one path's table. -/
def regSetValues (vals kvals : List (String × String)) : List (String × String) :=
  vals.foldl (fun acc nv => alSet acc nv.1 nv.2) kvals

/-- The write loop of `modify_device_ids`: open each path for writing and
set its values; stop at the first path that is missing or not writable
(the raised exception), keeping the writes already made. -/
def applyNewIds (reg : Registry) :
    List (String × List (String × String)) → Bool × Registry
  | [] => (true, reg)
  | (path, vals) :: rest =>
    match alGet reg path with
    | none => (false, reg)
    | some k =>
      if !k.writeOk then (false, reg)
      else applyNewIds
        (alSet reg path { k with values := regSetValues vals k.values }) rest

/-- `RegistryManager.restore_backup`, applied to in-memory backup data:
paths whose backup entry is an `"Error"` sentinel are skipped; any write
failure aborts (raises) with earlier paths already restored. -/
def restore_registry_values (reg : Registry) :
    List (String × List (String × String)) → Bool × Registry
  | [] => (true, reg)
  | (path, vals) :: rest =>
    if (alGet vals "Error").isSome then restore_registry_values reg rest
    else
      match alGet reg path with
      | none => (false, reg)
      | some k =>
        if !k.writeOk then (false, reg)
        else restore_registry_values
          (alSet reg path { k with values := regSetValues vals k.values }) rest

structure ModifyOutcome where
  raised : Bool
  registry : Registry
  backupData : List (String × List (String × String))
  restoreAttempted : Bool
  deriving Repr

/-- `RegistryManager.modify_device_ids` (src/registry_manager.py lines
148-181): read the current values, write the backup JSON, apply the new
ids path by path; on any single write failure attempt to restore the
just-created backup (its own failure swallowed by `except: pass`) and
re-raise; on success return the before/after values. -/
def modify_device_ids (reg : Registry)
    (newIds : List (String × List (String × String))) : ModifyOutcome :=
  let backup := read_registry_values reg
  let res := applyNewIds reg newIds
  if res.1 then
    { raised := false, registry := res.2, backupData := backup,
      restoreAttempted := false }
  else
    { raised := true, registry := (restore_registry_values res.2 backup).2,
      backupData := backup, restoreAttempted := true }

/-! ## Theorems -/

theorem alGet_alSet_self {κ α : Type} [DecidableEq κ]
    (l : List (κ × α)) (p : κ) (v : α) : alGet (alSet l p v) p = some v := by
  induction l with
  | nil => simp [alGet, alSet]
  | cons hd tl ih =>
    obtain ⟨q, w⟩ := hd
    by_cases h : p = q <;> simp [alGet, alSet, h, ih]

theorem alGet_alSet_ne {κ α : Type} [DecidableEq κ]
    (l : List (κ × α)) (p q : κ) (v : α) (h : q ≠ p) :
    alGet (alSet l p v) q = alGet l q := by
  induction l with
  | nil => simp [alGet, alSet, h]
  | cons hd tl ih =>
    obtain ⟨r, w⟩ := hd
    by_cases hpr : p = r
    · subst hpr
      simp [alGet, alSet, h]
    · by_cases hqr : q = r <;> simp [alGet, alSet, hpr, hqr, ih]

theorem alGet_alRemove_self {κ α : Type} [DecidableEq κ]
    (l : List (κ × α)) (p : κ) : alGet (alRemove l p) p = none := by
  induction l with
  | nil => simp [alGet, alRemove]
  | cons hd tl ih =>
    obtain ⟨q, w⟩ := hd
    by_cases h : p = q
    · subst h
      simp [alRemove, ih]
    · simp [alGet, alRemove, h, ih]

theorem alGet_alRemove_ne {κ α : Type} [DecidableEq κ]
    (l : List (κ × α)) (p q : κ) (h : q ≠ p) :
    alGet (alRemove l p) q = alGet l q := by
  induction l with
  | nil => simp [alGet, alRemove]
  | cons hd tl ih =>
    obtain ⟨r, w⟩ := hd
    by_cases hpr : p = r
    · subst hpr
      simp [alGet, alRemove, h, ih]
    · by_cases hqr : q = r <;> simp [alGet, alRemove, hpr, hqr, ih]

/-- C5: version comparison is per-segment integer tuple comparison on
dot-separated integers: `compare("1.2.0","1.1.9") > 0`,
`compare("1.1.0","1.1.0") == 0`, and whenever either side has a
non-numeric or malformed segment the comparison reports "not newer"
(returns 0, and `_is_newer_version` returns `False`) instead of raising. -/
theorem version_compare_spec :
    0 < compare_versions "1.2.0" "1.1.9" ∧
    compare_versions "1.1.0" "1.1.0" = 0 ∧
    ∀ s t : String, parseVersionParts s = none ∨ parseVersionParts t = none →
      compare_versions s t = 0 ∧ is_newer_version s t = false := by
  refine ⟨by decide, by decide, ?_⟩
  intro s t h
  rcases h with h | h
  · cases ht : parseVersionParts t <;>
      simp [compare_versions, is_newer_version, h, ht]
  · cases hs : parseVersionParts s <;>
      simp [compare_versions, is_newer_version, h, hs]

/-- Witness for C5 at the spec's own example: `compare("bad","1.0.0")`
reports "not newer". -/
theorem version_compare_spec_witness :
    compare_versions "bad" "1.0.0" = 0 ∧ is_newer_version "bad" "1.0.0" = false :=
  version_compare_spec.2.2 "bad" "1.0.0" (Or.inl (by decide))

/-! ## Helper lemmas -/

/-- The backup file name strictly extends the original file name, so the
backup path can never collide with the target path. -/
theorem backupFileName_ne (b sfx ts : String) : backupFileName b sfx ts ≠ b := by
  intro h
  have hlen := congrArg String.length h
  have h8 : (".backup." : String).length = 8 := rfl
  have hdot : ("." : String).length = 1 := rfl
  rw [backupFileName] at hlen
  by_cases hs : sfx = ""
  · rw [if_pos hs, String.length_append, String.length_append, h8] at hlen
    omega
  · rw [if_neg hs, String.length_append, String.length_append,
      String.length_append, String.length_append, h8, hdot] at hlen
    omega

theorem backupPath_ne_filePath (backupDir filePath : PyPath) (sfx ts : String) :
    backupDir ++ [backupFileName (pbasename filePath) sfx ts] ≠ filePath := by
  intro h
  have hbase : pbasename (backupDir ++ [backupFileName (pbasename filePath) sfx ts]) =
      pbasename filePath := by rw [h]
  rw [pbasename, List.getLastD_concat] at hbase
  exact backupFileName_ne _ _ _ hbase

/-! ## C9: decoding behaviour of the read step -/

/-- C9 counterexample: the read step (`errors="ignore"`) deletes the
undecodable byte `0xFF` instead of turning it into the replacement
character U+FFFD: reading the four bytes `"FOO" + 0xFF` yields the
three-code-point text `"FOO"`, which contains no replacement character and
is not the text `"FOO�"` that per-byte replacement would produce. -/
theorem read_decode_replacement_cex :
    decodeUtf8Ignore [70, 79, 79, 255] = [70, 79, 79] ∧
    ¬ 0xFFFD ∈ decodeUtf8Ignore [70, 79, 79, 255] ∧
    decodeUtf8Ignore [70, 79, 79, 255] ≠ [70, 79, 79, 0xFFFD] := by
  refine ⟨by decide, by decide, by decide⟩

/-- C9 (amended): the read step is best-effort and never fatal, but an
undecodable byte is dropped (ignored), not replaced: a byte that can start
no UTF-8 sequence (a stray continuation byte, an overlong lead `0xC0`/`0xC1`,
or a byte above `0xF4`) is removed from the decoded text and decoding
continues with the remaining bytes. -/
theorem read_decode_ignore_drops (b : Nat) (bs : List Nat)
    (h : (0x80 ≤ b ∧ b < 0xC2) ∨ 0xF4 < b) :
    decodeUtf8Ignore (b :: bs) = decodeUtf8Ignore bs := by
  rw [decodeUtf8Ignore.eq_def]
  rcases h with ⟨h1, h2⟩ | h
  · simp [show ¬ b < 0x80 by omega, h2]
  · simp [show ¬ b < 0x80 by omega, show ¬ b < 0xC2 by omega,
      show ¬ b ≤ 0xDF by omega, show ¬ b ≤ 0xEF by omega,
      show ¬ b ≤ 0xF4 by omega]

/-- Witness for C9's amended statement at the byte `0xFF` before the text
`"FOO"`. -/
theorem read_decode_ignore_drops_witness :
    decodeUtf8Ignore [255, 70, 79, 79] = decodeUtf8Ignore [70, 79, 79] :=
  read_decode_ignore_drops 255 [70, 79, 79] (Or.inr (by decide))

/-! ## C1: success postconditions of `safe_file_modify` -/

/-- C1: whenever `safe_file_modify` returns `True` (for a backup timestamp
whose backup file name is not already taken), the target file afterwards
holds the encoding of the text obtained by applying every rule in table
order, cumulatively, to the pre-mutation text; its permission bits are the
pre-mutation bits; the new backup file holds the pre-mutation bytes,
byte-for-byte; and no path other than the single new backup file changes
existence, so exactly one new file — the backup — exists in `backup_dir`. -/
theorem safe_file_modify_success_post
    (fs : FileSys) (filePath : PyPath) (rules : List PatchRule)
    (backupDir : PyPath) (sfx ts : String) (file : MFile)
    (hget : alGet fs filePath = some file)
    (hfresh : alGet fs (backupDir ++ [backupFileName (pbasename filePath) sfx ts]) = none)
    (hok : (safeFileModify fs filePath rules backupDir sfx ts).1 = true) :
    ∃ newText,
      applyRules rules (decodeUtf8Ignore file.bytes) = .ok newText ∧
      alGet (safeFileModify fs filePath rules backupDir sfx ts).2.1 filePath =
        some { bytes := encodeUtf8 newText, mode := file.mode,
               writable := file.writable } ∧
      alGet (safeFileModify fs filePath rules backupDir sfx ts).2.1
          (backupDir ++ [backupFileName (pbasename filePath) sfx ts]) = some file ∧
      ∀ p : PyPath, p ≠ backupDir ++ [backupFileName (pbasename filePath) sfx ts] →
        ((alGet (safeFileModify fs filePath rules backupDir sfx ts).2.1 p).isSome ↔
          (alGet fs p).isSome) := by
  have hbp : backupDir ++ [backupFileName (pbasename filePath) sfx ts] ≠ filePath :=
    backupPath_ne_filePath backupDir filePath sfx ts
  cases hw : file.writable with
  | false => simp [safeFileModify, hget, hw] at hok
  | true =>
    cases happ : applyRules rules (decodeUtf8Ignore file.bytes) with
    | error e => simp [safeFileModify, hget, hw, happ] at hok
    | ok newText =>
      have hrun : safeFileModify fs filePath rules backupDir sfx ts =
          (true,
            alSet (alRemove
                (alSet fs (backupDir ++ [backupFileName (pbasename filePath) sfx ts]) file)
                filePath)
              filePath
              { bytes := encodeUtf8 newText, mode := file.mode, writable := true },
            [MutEv.backupCreated, MutEv.tmpWritten]) := by
        simp [safeFileModify, hget, hw, happ]
      refine ⟨newText, rfl, ?_, ?_, ?_⟩
      · rw [hrun]
        simp [alGet_alSet_self, hw]
      · rw [hrun]
        show alGet _ _ = some file
        rw [alGet_alSet_ne _ _ _ _ hbp, alGet_alRemove_ne _ _ _ hbp,
          alGet_alSet_self]
      · intro p hp
        rw [hrun]
        by_cases hpf : p = filePath
        · subst hpf
          simp [alGet_alSet_self, hget]
        · show (alGet _ p).isSome ↔ _
          rw [alGet_alSet_ne _ _ _ _ hpf, alGet_alRemove_ne _ _ _ hpf,
            alGet_alSet_ne _ _ _ _ hp]

/-- Witness for C1 on the spec's own scenario: a file containing `"FOO"`,
the rule table `{"FOO": "BAR"}`, an empty backup directory. -/
theorem safe_file_modify_success_post_witness :
    ∃ newText,
      applyRules [PatchRule.lit [70, 79, 79] [66, 65, 82]]
        (decodeUtf8Ignore (MFile.mk [70, 79, 79] 438 true).bytes) = .ok newText ∧
      alGet (safeFileModify [(["d", "t"], MFile.mk [70, 79, 79] 438 true)]
          ["d", "t"] [PatchRule.lit [70, 79, 79] [66, 65, 82]] ["b"] ""
          "20240101_000000").2.1 ["d", "t"] =
        some { bytes := encodeUtf8 newText, mode := 438, writable := true } ∧
      alGet (safeFileModify [(["d", "t"], MFile.mk [70, 79, 79] 438 true)]
          ["d", "t"] [PatchRule.lit [70, 79, 79] [66, 65, 82]] ["b"] ""
          "20240101_000000").2.1
          (["b"] ++ [backupFileName (pbasename ["d", "t"]) "" "20240101_000000"]) =
        some (MFile.mk [70, 79, 79] 438 true) ∧
      ∀ p : PyPath,
        p ≠ ["b"] ++ [backupFileName (pbasename ["d", "t"]) "" "20240101_000000"] →
        ((alGet (safeFileModify [(["d", "t"], MFile.mk [70, 79, 79] 438 true)]
            ["d", "t"] [PatchRule.lit [70, 79, 79] [66, 65, 82]] ["b"] ""
            "20240101_000000").2.1 p).isSome ↔
          (alGet [(["d", "t"], MFile.mk [70, 79, 79] 438 true)] p).isSome) :=
  safe_file_modify_success_post
    [(["d", "t"], MFile.mk [70, 79, 79] 438 true)] ["d", "t"]
    [PatchRule.lit [70, 79, 79] [66, 65, 82]] ["b"] "" "20240101_000000"
    (MFile.mk [70, 79, 79] 438 true) rfl rfl rfl

/-! ## C2: where in the pipeline the backup is taken -/

/-- C2 counterexample: in `FileManager.safe_file_modify` the backup
`shutil.copy2` runs *before* the transform ("Create backup first"), so on a
rule whose `re.sub` raises, the call returns `False` with the target file
unchanged — but a backup file *has* been created, refuting "no backup file
is created" for transform failures.  The trace shows the backup event and
no temp-write event. -/
theorem mutation_backup_order_cex :
    (safeFileModify [(["d", "t"], MFile.mk [70, 79, 79] 438 true)] ["d", "t"]
        [PatchRule.sub (fun _ => .error ())] ["b"] "" "20240101_000000").1
      = false ∧
    alGet (safeFileModify [(["d", "t"], MFile.mk [70, 79, 79] 438 true)] ["d", "t"]
        [PatchRule.sub (fun _ => .error ())] ["b"] "" "20240101_000000").2.1
        ["b", "t.backup.20240101_000000"] =
      some (MFile.mk [70, 79, 79] 438 true) ∧
    alGet (safeFileModify [(["d", "t"], MFile.mk [70, 79, 79] 438 true)] ["d", "t"]
        [PatchRule.sub (fun _ => .error ())] ["b"] "" "20240101_000000").2.1
        ["d", "t"] =
      some (MFile.mk [70, 79, 79] 438 true) ∧
    (safeFileModify [(["d", "t"], MFile.mk [70, 79, 79] 438 true)] ["d", "t"]
        [PatchRule.sub (fun _ => .error ())] ["b"] "" "20240101_000000").2.2 =
      [MutEv.backupCreated] :=
  ⟨rfl, rfl, rfl, rfl⟩

/-- C2 (amended): in `modify_workbench_js` the backup copy is indeed taken
only after the transform and the temporary-file write, right before the
swap: when the initial `os.stat` fails the call returns `False` with the
tree entirely unchanged and no backup (empty trace), and otherwise the
event trace is temp-write followed by backup.  In
`FileManager.safe_file_modify`, however,
the backup is created *before* the transform: on every input whose transform
raises, the call returns `False` and the target file is unchanged, but a
backup file of the pre-mutation content is left in the backup directory. -/
theorem mutation_backup_ordering :
    (∀ (fs : FileSys) (filePath : PyPath) (rules : List PatchRule)
        (backupDir : PyPath) (sfx ts : String) (file : MFile),
      alGet fs filePath = some file → file.writable = true →
      applyRules rules (decodeUtf8Ignore file.bytes) = .error () →
      (safeFileModify fs filePath rules backupDir sfx ts).1 = false ∧
      alGet (safeFileModify fs filePath rules backupDir sfx ts).2.1 filePath =
        some file ∧
      alGet (safeFileModify fs filePath rules backupDir sfx ts).2.1
        (backupDir ++ [backupFileName (pbasename filePath) sfx ts]) = some file ∧
      (safeFileModify fs filePath rules backupDir sfx ts).2.2 =
        [MutEv.backupCreated]) ∧
    (∀ (fs : FileSys) (filePath : PyPath) (patterns : List (List Nat × List Nat))
        (backupDir : PyPath) (ts : String),
      (alGet fs filePath = none →
        modifyWorkbenchJs fs filePath patterns backupDir ts = (false, fs, [])) ∧
      ((modifyWorkbenchJs fs filePath patterns backupDir ts).2.2 = [] ∨
       (modifyWorkbenchJs fs filePath patterns backupDir ts).2.2 =
         [MutEv.tmpWritten, MutEv.backupCreated])) := by
  constructor
  · intro fs filePath rules backupDir sfx ts file hget hw happ
    have hbp : backupDir ++ [backupFileName (pbasename filePath) sfx ts] ≠ filePath :=
      backupPath_ne_filePath backupDir filePath sfx ts
    have hrun : safeFileModify fs filePath rules backupDir sfx ts =
        (false,
          alSet fs (backupDir ++ [backupFileName (pbasename filePath) sfx ts]) file,
          [MutEv.backupCreated]) := by
      simp [safeFileModify, hget, hw, happ]
    rw [hrun]
    refine ⟨rfl, ?_, alGet_alSet_self _ _ _, rfl⟩
    show alGet (alSet fs (backupDir ++ [backupFileName (pbasename filePath) sfx ts]) file)
        filePath = some file
    rw [alGet_alSet_ne _ _ _ _ (Ne.symm hbp)]
    exact hget
  · intro fs filePath patterns backupDir ts
    refine ⟨fun hnone => by simp [modifyWorkbenchJs, hnone], ?_⟩
    cases hget : alGet fs filePath with
    | none => exact Or.inl (by simp [modifyWorkbenchJs, hget])
    | some file => exact Or.inr (by simp [modifyWorkbenchJs, hget])

/-- Witness for C2's amended statement: the failing-rule run from the
counterexample's input, and the workbench trace on a one-file tree. -/
theorem mutation_backup_ordering_witness :
    ((safeFileModify [(["d", "t"], MFile.mk [70, 79, 79] 438 true)] ["d", "t"]
        [PatchRule.sub (fun _ => .error ())] ["w"] "x" "20240101_000000").1
      = false ∧
     alGet (safeFileModify [(["d", "t"], MFile.mk [70, 79, 79] 438 true)] ["d", "t"]
        [PatchRule.sub (fun _ => .error ())] ["w"] "x" "20240101_000000").2.1
        ["d", "t"] = some (MFile.mk [70, 79, 79] 438 true) ∧
     alGet (safeFileModify [(["d", "t"], MFile.mk [70, 79, 79] 438 true)] ["d", "t"]
        [PatchRule.sub (fun _ => .error ())] ["w"] "x" "20240101_000000").2.1
        (["w"] ++ [backupFileName (pbasename ["d", "t"]) "x" "20240101_000000"]) =
       some (MFile.mk [70, 79, 79] 438 true) ∧
     (safeFileModify [(["d", "t"], MFile.mk [70, 79, 79] 438 true)] ["d", "t"]
        [PatchRule.sub (fun _ => .error ())] ["w"] "x" "20240101_000000").2.2 =
       [MutEv.backupCreated]) ∧
    (modifyWorkbenchJs [] ["d", "t"] [] ["w"] "20240101_000000" =
      (false, [], [])) ∧
    ((modifyWorkbenchJs [(["d", "t"], MFile.mk [70, 79, 79] 438 true)] ["d", "t"]
        [] ["w"] "20240101_000000").2.2 = [] ∨
     (modifyWorkbenchJs [(["d", "t"], MFile.mk [70, 79, 79] 438 true)] ["d", "t"]
        [] ["w"] "20240101_000000").2.2 =
       [MutEv.tmpWritten, MutEv.backupCreated]) :=
  ⟨mutation_backup_ordering.1 [(["d", "t"], MFile.mk [70, 79, 79] 438 true)]
      ["d", "t"] [PatchRule.sub (fun _ => .error ())] ["w"] "x" "20240101_000000"
      (MFile.mk [70, 79, 79] 438 true) rfl rfl rfl,
    (mutation_backup_ordering.2 [] ["d", "t"] [] ["w"] "20240101_000000").1 rfl,
    (mutation_backup_ordering.2 [(["d", "t"], MFile.mk [70, 79, 79] 438 true)]
      ["d", "t"] [] ["w"] "20240101_000000").2⟩

/-! ## C8: the empty rule set and absent patterns -/

/-- C8 counterexample: on a file whose bytes are `"FOO"` followed by the
invalid byte `0xFF`, `safe_file_modify` with the empty rule table succeeds
but the resulting file content is `"FOO"` — the `errors="ignore"` read
dropped the byte, so `mutate(f, {})` is *not* the identity on f's on-disk
content. -/
theorem mutate_empty_rules_cex :
    (safeFileModify [(["d", "t"], MFile.mk [70, 79, 79, 255] 438 true)]
        ["d", "t"] [] ["b"] "" "20240101_000000").1 = true ∧
    Option.map MFile.bytes
        (alGet (safeFileModify [(["d", "t"], MFile.mk [70, 79, 79, 255] 438 true)]
          ["d", "t"] [] ["b"] "" "20240101_000000").2.1 ["d", "t"]) =
      some [70, 79, 79] ∧
    Option.map MFile.bytes
        (alGet (safeFileModify [(["d", "t"], MFile.mk [70, 79, 79, 255] 438 true)]
          ["d", "t"] [] ["b"] "" "20240101_000000").2.1 ["d", "t"]) ≠
      Option.map MFile.bytes
        (alGet [(["d", "t"], MFile.mk [70, 79, 79, 255] 438 true)] ["d", "t"]) :=
  ⟨rfl, rfl, by decide⟩

/-- C8 (amended): for every file whose bytes survive the read round trip —
i.e. whose content is well-formed UTF-8, so that re-encoding the decoded
text gives back the original bytes — a successful `safe_file_modify` with
the empty rule table leaves the target file identical (bytes, mode,
writability); and a literal rule whose pattern is absent from the text is a
silent no-op on the text, not an error. -/
theorem mutate_empty_rules_identity :
    (∀ (fs : FileSys) (filePath backupDir : PyPath) (sfx ts : String)
        (file : MFile),
      alGet fs filePath = some file →
      encodeUtf8 (decodeUtf8Ignore file.bytes) = file.bytes →
      (safeFileModify fs filePath [] backupDir sfx ts).1 = true →
      alGet (safeFileModify fs filePath [] backupDir sfx ts).2.1 filePath =
        some file) ∧
    (∀ (s old new : List Nat), old ≠ [] → ¬ old <:+: s →
      listReplace s old new = s) := by
  constructor
  · intro fs filePath backupDir sfx ts file hget henc hok
    cases hw : file.writable with
    | false => simp [safeFileModify, hget, hw] at hok
    | true =>
      have hrun : safeFileModify fs filePath [] backupDir sfx ts =
          (true,
            alSet (alRemove
                (alSet fs (backupDir ++ [backupFileName (pbasename filePath) sfx ts])
                  file)
                filePath)
              filePath
              { bytes := encodeUtf8 (decodeUtf8Ignore file.bytes),
                mode := file.mode, writable := true },
            [MutEv.backupCreated, MutEv.tmpWritten]) := by
        simp [safeFileModify, hget, hw, applyRules]
      rw [hrun]
      show alGet (alSet _ filePath _) filePath = _
      rw [alGet_alSet_self, henc, ← hw]
  · intro s old new hne hinf
    induction s with
    | nil =>
      rw [listReplace, if_neg hne]
    | cons c cs ih =>
      rw [listReplace, dif_neg hne]
      cases hpre : old.isPrefixOf (c :: cs) with
      | true =>
        exact absurd ((List.isPrefixOf_iff_prefix.mp hpre).isInfix) hinf
      | false =>
        rw [if_neg (by simp [hpre])]
        rw [ih (fun h => hinf (List.infix_cons h))]

/-- Witness for C8's amended statement: the spec's round-trip scenario on a
well-formed `"FOO"` file with the empty rule table, and an absent literal
pattern. -/
theorem mutate_empty_rules_identity_witness :
    alGet (safeFileModify [(["d", "t"], MFile.mk [70, 79, 79] 438 true)]
        ["d", "t"] [] ["b"] "" "20240101_000000").2.1 ["d", "t"] =
      some (MFile.mk [70, 79, 79] 438 true) ∧
    listReplace [66, 65, 82] [70, 79, 79] [88] = [66, 65, 82] :=
  ⟨mutate_empty_rules_identity.1 [(["d", "t"], MFile.mk [70, 79, 79] 438 true)]
      ["d", "t"] ["b"] "" "20240101_000000" (MFile.mk [70, 79, 79] 438 true)
      rfl rfl rfl,
    mutate_empty_rules_identity.2 [66, 65, 82] [70, 79, 79] [88]
      (by decide) (by decide)⟩

/-! ## Lemmas for the backup world -/

theorem alGet_append_left {κ α : Type} [DecidableEq κ]
    (l u : List (κ × α)) (p : κ) (v : α) (h : alGet l p = some v) :
    alGet (l ++ u) p = some v := by
  induction l with
  | nil => simp [alGet] at h
  | cons hd tl ih =>
    obtain ⟨q, w⟩ := hd
    by_cases hq : p = q
    · simpa [alGet, hq] using h
    · rw [alGet, if_neg hq] at h
      simpa [alGet, hq] using ih h

theorem alGet_rmtree_not_under (w : World) (d p : PyPath)
    (h : ¬ d <+: p) : alGet (rmtree w d) p = alGet w p := by
  induction w with
  | nil => rfl
  | cons hd tl ih =>
    obtain ⟨q, it⟩ := hd
    by_cases hpq : p = q
    · subst hpq
      have : d.isPrefixOf p = false := by
        cases hdp : d.isPrefixOf p with
        | true => exact absurd (List.isPrefixOf_iff_prefix.mp hdp) h
        | false => rfl
      simp [rmtree, alGet, this, List.filter]
    · simp only [rmtree, List.filter] at ih ⊢
      cases hflt : d.isPrefixOf q with
      | true =>
        simp only [Bool.not_true]
        rw [alGet, if_neg hpq]
        exact ih
      | false =>
        simp only [Bool.not_false]
        rw [alGet, if_neg hpq, alGet, if_neg hpq]
        exact ih

theorem alGet_copytree_not_under (w : World) (src dst p : PyPath) (v : Item)
    (h : alGet w p = some v) : alGet (copytree w src dst) p = some v :=
  alGet_append_left _ _ _ _ h

/-! ## C3: restore with missing backup content -/

/-- C3: when a backup's manifest loads but the recorded backup content path
does not exist on disk, `restore_backup` returns `False` and the world —
in particular the current file at `source_path` — is entirely untouched:
no copy, no delete, and no `pre_restore` snapshot happens. -/
theorem restore_backup_missing_content
    (w : World) (base : PyPath) (nowStr : String) (nowTime : Int)
    (backupId : String) (info : MJson) (sourcePath backupFilePath : PyPath)
    (hdir : (alGet w (base ++ [backupId])).isSome)
    (hman : alGet w (base ++ [backupId] ++ ["backup_metadata.json"]) =
      some (.manifestFile (some info)))
    (hsp : info.source_path = some sourcePath)
    (hbp : info.backup_path = some backupFilePath)
    (hspne : sourcePath ≠ []) (hbpne : backupFilePath ≠ [])
    (hmiss : alGet w backupFilePath = none) :
    restore_backup w base nowStr nowTime backupId = (false, w) := by
  have hdirF : (alGet w (base ++ [backupId])).isNone = false := by
    rcases Option.isSome_iff_exists.mp hdir with ⟨it, hit⟩
    simp [hit]
  have hman' : alGet w (base ++ [backupId, "backup_metadata.json"]) =
      some (.manifestFile (some info)) := by simpa using hman
  simp [restore_backup, hdirF, hman', hsp, hbp, hspne, hbpne, hmiss]

/-- Witness for C3 on `c3World`. -/
theorem restore_backup_missing_content_witness :
    restore_backup c3World ["bk"] "2" 200 "m_t_1" = (false, c3World) :=
  restore_backup_missing_content c3World ["bk"] "2" 200 "m_t_1"
    { source_path := some ["d", "t"], backup_path := some ["bk", "m_t_1", "t"],
      backup_type := "m", created_date := some (some 100) }
    ["d", "t"] ["bk", "m_t_1", "t"]
    (by decide) rfl rfl rfl (by decide) (by decide) rfl

theorem ne_append_singleton {α : Type} (l : List α) (a : α) : l ≠ l ++ [a] := by
  intro h
  have := congrArg List.length h
  simp at this

theorem append_singleton_ne {α : Type} [DecidableEq α]
    {l₁ l₂ : List α} {a b : α} (h : a ≠ b) : l₁ ++ [a] ≠ l₂ ++ [b] := by
  intro he
  exact h (by simpa using (List.append_inj' he (by simp)).2)

/-! ## C6: restore snapshots the current source first -/

/-- C6: every `restore_backup` run that goes on to copy backup content over
an *existing* `source_path` first snapshots the current state of
`source_path` under backup type `"pre_restore"`: after any successful
restore of an existing source, the backup root contains a fresh
`pre_restore` backup folder whose manifest records the source path, and —
for a file source — whose content file holds exactly the source's
pre-restore state.  (The pre-restore folder name is assumed fresh, as a
current-timestamp name is, the source is assumed not to be an ancestor
directory of the backup root, and the source file is assumed not to be
itself named `backup_metadata.json`.) -/
theorem restore_backup_pre_restore_snapshot
    (w : World) (base : PyPath) (nowStr : String) (nowTime : Int)
    (backupId : String) (info : MJson) (sourcePath backupFilePath : PyPath)
    (hman : alGet w (base ++ [backupId] ++ ["backup_metadata.json"]) =
      some (.manifestFile (some info)))
    (hsp : info.source_path = some sourcePath)
    (hbp : info.backup_path = some backupFilePath)
    (hsrc : (alGet w sourcePath).isSome)
    (hfresh : ∀ p : PyPath,
      (base ++ ["pre_restore" ++ "_" ++ pbasename sourcePath ++ "_" ++ nowStr]) <+: p →
      alGet w p = none)
    (hnoanc : ¬ sourcePath <+: base)
    (hname : pbasename sourcePath ≠ "backup_metadata.json")
    (hok : (restore_backup w base nowStr nowTime backupId).1 = true) :
    alGet (restore_backup w base nowStr nowTime backupId).2
        (base ++ ["pre_restore" ++ "_" ++ pbasename sourcePath ++ "_" ++ nowStr] ++
          ["backup_metadata.json"]) =
      some (.manifestFile (some
        { source_path := some sourcePath,
          backup_path := some
            (base ++ ["pre_restore" ++ "_" ++ pbasename sourcePath ++ "_" ++ nowStr] ++
              [pbasename sourcePath]),
          backup_type := "pre_restore",
          created_date := some (some nowTime) })) ∧
    (isFileAt w sourcePath = true →
      alGet (restore_backup w base nowStr nowTime backupId).2
          (base ++ ["pre_restore" ++ "_" ++ pbasename sourcePath ++ "_" ++ nowStr] ++
            [pbasename sourcePath]) =
        alGet w sourcePath) := by
  obtain ⟨srcItem, hsrcItem⟩ := Option.isSome_iff_exists.mp hsrc
  -- abbreviations
  generalize hPD : base ++ ["pre_restore" ++ "_" ++ pbasename sourcePath ++ "_" ++ nowStr]
    = preDir at *
  -- path disjointness facts
  have hF1 : ¬ preDir <+: sourcePath := by
    intro hpre
    rw [hfresh sourcePath hpre] at hsrcItem
    exact Option.noConfusion hsrcItem
  have hF5 : sourcePath ≠ preDir := fun h => hF1 (h ▸ List.prefix_refl _)
  have hF2 : ∀ m : String, sourcePath ≠ preDir ++ [m] := by
    intro m h
    exact hF1 (h ▸ List.prefix_append _ _)
  have hF4 : ∀ y m : String, sourcePath ++ [y] ≠ preDir ++ [m] := by
    intro y m h
    exact hF5 (List.append_inj' h (by simp)).1
  have hF3 : ∀ m : String, ¬ sourcePath <+: preDir ++ [m] := by
    intro m hpre
    rcases List.prefix_concat_iff.mp hpre with h | h
    · exact hF2 m h
    · rw [← hPD] at h
      rcases List.prefix_concat_iff.mp h with h2 | h2
      · exact hF5 (by rw [h2, hPD])
      · exact hnoanc h2
  -- reconstruct the branch taken, condition by condition
  have hdirF : (alGet w (base ++ [backupId])).isNone = false := by
    cases hd : (alGet w (base ++ [backupId])).isNone with
    | false => rfl
    | true => simp [restore_backup, hd] at hok
  have hman' : alGet w (base ++ [backupId, "backup_metadata.json"]) =
      some (.manifestFile (some info)) := by simpa using hman
  have hspe : ¬ sourcePath = [] := by
    intro h
    simp [restore_backup, hdirF, hman', hsp, hbp, h] at hok
  have hbpe : ¬ backupFilePath = [] := by
    intro h
    simp [restore_backup, hdirF, hman', hsp, hbp, h] at hok
  have hbex : ¬ alGet w backupFilePath = none := by
    intro h
    simp [restore_backup, hdirF, hman', hsp, hbp, hspe, hbpe, h] at hok
  have hrest : restore_backup w base nowStr nowTime backupId =
      (if isFileAt (create_backup w base nowStr nowTime sourcePath "pre_restore").2
          backupFilePath = true then
        (true, copy2 (create_backup w base nowStr nowTime sourcePath "pre_restore").2
          backupFilePath sourcePath)
      else if (alGet (create_backup w base nowStr nowTime sourcePath "pre_restore").2
          sourcePath).isSome = true then
        if isFileAt (create_backup w base nowStr nowTime sourcePath "pre_restore").2
            sourcePath = true then
          (false, (create_backup w base nowStr nowTime sourcePath "pre_restore").2)
        else
          (true, copytree
            (rmtree (create_backup w base nowStr nowTime sourcePath "pre_restore").2
              sourcePath)
            backupFilePath sourcePath)
      else
        (true, copytree (create_backup w base nowStr nowTime sourcePath "pre_restore").2
          backupFilePath sourcePath)) := by
    simp [restore_backup, hdirF, hman', hsp, hbp, hspe, hbpe, hbex, hsrcItem]
  -- the shape of the pre_restore snapshot
  have hsrcF : (alGet w sourcePath).isNone = false := by simp [hsrcItem]
  have hw1eq : (create_backup w base nowStr nowTime sourcePath "pre_restore").2 =
      alSet
        (if isFileAt w sourcePath = true then
          copy2 (alSet w preDir Item.dir) sourcePath (preDir ++ [pbasename sourcePath])
        else
          copytree (alSet w preDir Item.dir) sourcePath (preDir ++ [pbasename sourcePath]))
        (preDir ++ ["backup_metadata.json"])
        (Item.manifestFile (some
          { source_path := some sourcePath,
            backup_path := some (preDir ++ [pbasename sourcePath]),
            backup_type := "pre_restore",
            created_date := some (some nowTime) })) := by
    rw [← hPD]
    simp [create_backup, hsrcF]
  have hG1 : alGet (create_backup w base nowStr nowTime sourcePath "pre_restore").2
      (preDir ++ ["backup_metadata.json"]) =
      some (Item.manifestFile (some
        { source_path := some sourcePath,
          backup_path := some (preDir ++ [pbasename sourcePath]),
          backup_type := "pre_restore",
          created_date := some (some nowTime) })) := by
    rw [hw1eq]
    exact alGet_alSet_self _ _ _
  have hG2 : isFileAt w sourcePath = true →
      alGet (create_backup w base nowStr nowTime sourcePath "pre_restore").2
        (preDir ++ [pbasename sourcePath]) = some srcItem := by
    intro hf
    rw [hw1eq, if_pos hf]
    rw [alGet_alSet_ne _ _ _ _ (append_singleton_ne hname)]
    have h1 : alGet (alSet w preDir Item.dir) sourcePath = some srcItem := by
      rw [alGet_alSet_ne _ _ _ _ hF5]
      exact hsrcItem
    have h2 : alGet (alSet w preDir Item.dir) (preDir ++ [pbasename sourcePath]) = none := by
      rw [alGet_alSet_ne _ _ _ _ (Ne.symm (ne_append_singleton _ _))]
      exact hfresh _ (List.prefix_append _ _)
    simp only [copy2, h1, h2]
    exact alGet_alSet_self _ _ _
  -- every pre_restore entry survives the actual restore copy
  have hkeep : ∀ (m : String) (v : Item),
      alGet (create_backup w base nowStr nowTime sourcePath "pre_restore").2
        (preDir ++ [m]) = some v →
      alGet (restore_backup w base nowStr nowTime backupId).2 (preDir ++ [m]) = some v := by
    intro m v hv
    rw [hrest]
    by_cases hf1 : isFileAt (create_backup w base nowStr nowTime sourcePath
        "pre_restore").2 backupFilePath = true
    · rw [if_pos hf1]
      show alGet (copy2 _ backupFilePath sourcePath) _ = _
      cases hsv : alGet (create_backup w base nowStr nowTime sourcePath
          "pre_restore").2 backupFilePath with
      | none => simp only [copy2, hsv]; exact hv
      | some it2 =>
        cases hdst : alGet (create_backup w base nowStr nowTime sourcePath
            "pre_restore").2 sourcePath with
        | none =>
          simp only [copy2, hsv, hdst]
          rw [alGet_alSet_ne _ _ _ _ (Ne.symm (hF2 m))]
          exact hv
        | some itd =>
          cases itd with
          | dir =>
            simp only [copy2, hsv, hdst]
            rw [alGet_alSet_ne _ _ _ _ (Ne.symm (hF4 _ m))]
            exact hv
          | file bs =>
            simp only [copy2, hsv, hdst]
            rw [alGet_alSet_ne _ _ _ _ (Ne.symm (hF2 m))]
            exact hv
          | manifestFile mf =>
            simp only [copy2, hsv, hdst]
            rw [alGet_alSet_ne _ _ _ _ (Ne.symm (hF2 m))]
            exact hv
    · rw [if_neg hf1]
      by_cases hs1 : (alGet (create_backup w base nowStr nowTime sourcePath
          "pre_restore").2 sourcePath).isSome = true
      · rw [if_pos hs1]
        by_cases hf2 : isFileAt (create_backup w base nowStr nowTime sourcePath
            "pre_restore").2 sourcePath = true
        · exfalso
          rw [hrest, if_neg hf1, if_pos hs1, if_pos hf2] at hok
          exact Bool.noConfusion hok
        · rw [if_neg hf2]
          show alGet (copytree _ backupFilePath sourcePath) _ = _
          rw [copytree]
          apply alGet_append_left
          rw [alGet_rmtree_not_under _ _ _ (hF3 m)]
          exact hv
      · rw [if_neg hs1]
        show alGet (copytree _ backupFilePath sourcePath) _ = _
        rw [copytree]
        exact alGet_append_left _ _ _ _ hv
  refine ⟨?_, ?_⟩
  · exact hkeep "backup_metadata.json" _ hG1
  · intro hf
    rw [hsrcItem]
    exact hkeep (pbasename sourcePath) srcItem (hG2 hf)

/-- Witness for C6 on `c6World`: the successful restore leaves a
`pre_restore` snapshot of the old source content `[9]`. -/
theorem restore_backup_pre_restore_snapshot_witness :
    alGet (restore_backup c6World ["bk"] "2" 200 "m_t_1").2
        (["bk"] ++ ["pre_restore" ++ "_" ++ pbasename ["d", "t"] ++ "_" ++ "2"] ++
          ["backup_metadata.json"]) =
      some (.manifestFile (some
        { source_path := some ["d", "t"],
          backup_path := some
            (["bk"] ++ ["pre_restore" ++ "_" ++ pbasename ["d", "t"] ++ "_" ++ "2"] ++
              [pbasename ["d", "t"]]),
          backup_type := "pre_restore",
          created_date := some (some 200) })) ∧
    (isFileAt c6World ["d", "t"] = true →
      alGet (restore_backup c6World ["bk"] "2" 200 "m_t_1").2
          (["bk"] ++ ["pre_restore" ++ "_" ++ pbasename ["d", "t"] ++ "_" ++ "2"] ++
            [pbasename ["d", "t"]]) =
        alGet c6World ["d", "t"]) :=
  restore_backup_pre_restore_snapshot c6World ["bk"] "2" 200 "m_t_1"
    { source_path := some ["d", "t"], backup_path := some ["bk", "m_t_1", "t"],
      backup_type := "m", created_date := some (some 100) }
    ["d", "t"] ["bk", "m_t_1", "t"]
    rfl rfl rfl rfl
    (fun p hp => by
      have he : ("pre_restore" ++ "_" ++ pbasename ["d", "t"] ++ "_" ++ "2" : String) =
          "pre_restore_t_2" := rfl
      rw [he] at hp
      obtain ⟨t, rfl⟩ := hp
      simp [c6World, alGet])
    (by decide) (by decide) rfl

theorem alGet_rmtree_under (w : World) (d p : PyPath) (h : d <+: p) :
    alGet (rmtree w d) p = none := by
  induction w with
  | nil => rfl
  | cons hd tl ih =>
    obtain ⟨q, it⟩ := hd
    simp only [rmtree, List.filter] at ih ⊢
    cases hdq : d.isPrefixOf q with
    | true =>
      simp only [Bool.not_true]
      exact ih
    | false =>
      simp only [Bool.not_false]
      have hpq : p ≠ q := by
        intro he
        have hq : d.isPrefixOf q = true := List.isPrefixOf_iff_prefix.mpr (he ▸ h)
        rw [hq] at hdq
        exact Bool.noConfusion hdq
      rw [alGet, if_neg hpq]
      exact ih

/-- Two direct-child keys that are both prefixes of the same path name the
same child. -/
theorem key_prefix_unique {base : PyPath} {a b : String} {p : PyPath}
    (h1 : (base ++ [a]) <+: p) (h2 : (base ++ [b]) <+: p) : a = b := by
  have heq : base ++ [a] = base ++ [b] := by
    rcases List.prefix_or_prefix_of_prefix h1 h2 with h | h
    · exact h.eq_of_length (by simp)
    · exact (h.eq_of_length (by simp)).symm
  simpa using (List.append_inj' heq rfl).2

/-- One `cleanup_old_backups` loop iteration either removes the folder's
subtree and counts it, or leaves the accumulator alone, according to
`cleanupRemoves` read off the current world. -/
theorem cleanupStep_eq (base : PyPath) (cutoff : Int) (c : Nat) (wcur : World)
    (n : String) :
    cleanupStep base cutoff (c, wcur) n =
      if cleanupRemoves wcur base cutoff n = true then
        (c + 1, rmtree wcur (base ++ [n]))
      else (c, wcur) := by
  rw [cleanupStep, cleanupRemoves]
  cases hd : isDirAt wcur (base ++ [n]) with
  | false => simp
  | true =>
    simp only [Bool.not_true, Bool.false_eq_true, if_false]
    cases hmeta : alGet wcur (base ++ [n] ++ ["backup_metadata.json"]) with
    | none => simp
    | some it =>
      cases it with
      | file bs => simp
      | dir => simp
      | manifestFile mf =>
        cases mf with
        | none => simp
        | some info =>
          cases hcd : info.created_date with
          | none => simp [hcd]
          | some cd =>
            cases cd with
            | none => simp [hcd]
            | some t =>
              by_cases ht : t < cutoff
              · simp [hcd, ht]
              · simp [hcd, ht]

/-- A name produced by `listdirNames` comes from the key `base ++ [name]`. -/
theorem listdir_entry_eq {base key : PyPath} {n : String}
    (h : (if base.isPrefixOf key ∧ key.length = base.length + 1
            then (key.drop base.length).head? else none) = some n) :
    key = base ++ [n] := by
  by_cases hc : base.isPrefixOf key ∧ key.length = base.length + 1
  · rw [if_pos hc] at h
    obtain ⟨hpre, hlen⟩ := hc
    obtain ⟨t, rfl⟩ := List.isPrefixOf_iff_prefix.mp hpre
    rw [List.drop_left] at h
    have hlt : t.length = 1 := by
      rw [List.length_append] at hlen
      omega
    obtain ⟨a, rfl⟩ := List.length_eq_one.mp hlt
    simp only [List.head?_cons, Option.some.injEq] at h
    rw [h]
  · rw [if_neg hc] at h
    exact absurd h (by simp)

theorem listdirNames_nodup (w : World) (base : PyPath)
    (hw : (w.map Prod.fst).Nodup) : (listdirNames w base).Nodup := by
  induction w with
  | nil => simp [listdirNames]
  | cons hd tl ih =>
    obtain ⟨q, it⟩ := hd
    simp only [List.map_cons, List.nodup_cons] at hw
    obtain ⟨hq, htl⟩ := hw
    rw [listdirNames, List.filterMap_cons]
    cases hf : (if base.isPrefixOf (q, it).1 ∧ (q, it).1.length = base.length + 1
        then ((q, it).1.drop base.length).head? else none) with
    | none => exact ih htl
    | some n =>
      rw [List.nodup_cons]
      refine ⟨?_, ih htl⟩
      intro hmem
      obtain ⟨e, hetl, hfe⟩ := List.mem_filterMap.mp hmem
      have h1 : q = base ++ [n] := listdir_entry_eq hf
      have h2 : e.1 = base ++ [n] := listdir_entry_eq hfe
      exact hq (h1 ▸ h2 ▸ List.mem_map_of_mem Prod.fst hetl)

/-- The cleanup decision depends only on the folder entry and its manifest
entry. -/
theorem cleanupRemoves_congr {w1 w2 : World} {base : PyPath} {cutoff : Int}
    {n : String}
    (h1 : alGet w1 (base ++ [n]) = alGet w2 (base ++ [n]))
    (h2 : alGet w1 (base ++ [n] ++ ["backup_metadata.json"]) =
      alGet w2 (base ++ [n] ++ ["backup_metadata.json"])) :
    cleanupRemoves w1 base cutoff n = cleanupRemoves w2 base cutoff n := by
  rw [cleanupRemoves, cleanupRemoves, isDirAt, isDirAt, h1, h2]

/-- Invariant of the `cleanup_old_backups` fold: starting from any world
that still agrees with `w` on the subtrees of the (distinct) names yet to
be processed, the fold counts exactly the names `cleanupRemoves` selects on
`w`, removes exactly their subtrees, and leaves everything else alone. -/
theorem cleanup_foldl_spec (w : World) (base : PyPath) (cutoff : Int) :
    ∀ (names : List String) (c : Nat) (wcur : World),
      names.Nodup →
      (∀ n ∈ names, ∀ p : PyPath, (base ++ [n]) <+: p → alGet wcur p = alGet w p) →
      ((names.foldl (cleanupStep base cutoff) (c, wcur)).1 =
          c + (names.filter (cleanupRemoves w base cutoff)).length) ∧
      (∀ n ∈ names, cleanupRemoves w base cutoff n = false →
        ∀ p : PyPath, (base ++ [n]) <+: p →
          alGet (names.foldl (cleanupStep base cutoff) (c, wcur)).2 p = alGet wcur p) ∧
      (∀ n ∈ names, cleanupRemoves w base cutoff n = true →
        alGet (names.foldl (cleanupStep base cutoff) (c, wcur)).2 (base ++ [n]) = none) ∧
      (∀ p : PyPath, (∀ n ∈ names, ¬ (base ++ [n]) <+: p) →
        alGet (names.foldl (cleanupStep base cutoff) (c, wcur)).2 p = alGet wcur p) := by
  intro names
  induction names with
  | nil =>
    intro c wcur _ _
    exact ⟨by simp, by simp, by simp, fun p _ => rfl⟩
  | cons n ns ih =>
    intro c wcur hnd hinv
    have hndns : ns.Nodup := (List.nodup_cons.mp hnd).2
    have hn_ns : n ∉ ns := (List.nodup_cons.mp hnd).1
    have hagree : cleanupRemoves wcur base cutoff n = cleanupRemoves w base cutoff n :=
      cleanupRemoves_congr
        (hinv n (by simp) _ (List.prefix_refl _))
        (hinv n (by simp) _ (List.prefix_append _ _))
    have hstep := cleanupStep_eq base cutoff c wcur n
    rw [hagree] at hstep
    cases hrm : cleanupRemoves w base cutoff n with
    | true =>
      rw [hrm, if_pos rfl] at hstep
      have hinv' : ∀ n' ∈ ns, ∀ p : PyPath, (base ++ [n']) <+: p →
          alGet (rmtree wcur (base ++ [n])) p = alGet w p := by
        intro n' hn' p hp
        have hne : ¬ (base ++ [n]) <+: p := by
          intro hp2
          exact hn_ns (key_prefix_unique hp2 hp ▸ hn')
        rw [alGet_rmtree_not_under _ _ _ hne]
        exact hinv n' (by simp [hn']) p hp
      obtain ⟨ihc, iha, ihb, ihf⟩ := ih (c + 1) (rmtree wcur (base ++ [n])) hndns hinv'
      rw [List.foldl_cons, hstep]
      refine ⟨?_, ?_, ?_, ?_⟩
      · rw [ihc, List.filter_cons_of_pos hrm]
        simp
        omega
      · intro n' hn' hrm' p hp
        rcases List.mem_cons.mp hn' with rfl | hn'
        · rw [hrm] at hrm'
          exact absurd hrm' (by simp)
        · have hne : ¬ (base ++ [n]) <+: p := by
            intro hp2
            exact hn_ns (key_prefix_unique hp2 hp ▸ hn')
          rw [iha n' hn' hrm' p hp, alGet_rmtree_not_under _ _ _ hne]
      · intro n' hn' hrm'
        rcases List.mem_cons.mp hn' with rfl | hn'
        · have hnone : ∀ n'' ∈ ns, ¬ (base ++ [n'']) <+: base ++ [n'] := by
            intro n'' hn'' hp2
            exact hn_ns (key_prefix_unique hp2 (List.prefix_refl _) ▸ hn'')
          rw [ihf _ hnone]
          exact alGet_rmtree_under _ _ _ (List.prefix_refl _)
        · exact ihb n' hn' hrm'
      · intro p hnp
        rw [ihf p (fun n'' h'' => hnp n'' (List.mem_cons_of_mem _ h'')),
          alGet_rmtree_not_under _ _ _ (hnp n (by simp))]
    | false =>
      rw [hrm] at hstep
      simp only [Bool.false_eq_true, if_false] at hstep
      have hinv' : ∀ n' ∈ ns, ∀ p : PyPath, (base ++ [n']) <+: p →
          alGet wcur p = alGet w p := fun n' hn' p hp =>
        hinv n' (by simp [hn']) p hp
      obtain ⟨ihc, iha, ihb, ihf⟩ := ih c wcur hndns hinv'
      rw [List.foldl_cons, hstep]
      refine ⟨?_, ?_, ?_, ?_⟩
      · rw [ihc, List.filter_cons_of_neg (by simp [hrm])]
      · intro n' hn' hrm' p hp
        rcases List.mem_cons.mp hn' with rfl | hn'
        · have hnone : ∀ n'' ∈ ns, ¬ (base ++ [n'']) <+: p := by
            intro n'' hn'' hp2
            exact hn_ns (key_prefix_unique hp2 hp ▸ hn'')
          exact ihf p hnone
        · exact iha n' hn' hrm' p hp
      · intro n' hn' hrm'
        rcases List.mem_cons.mp hn' with rfl | hn'
        · rw [hrm] at hrm'
          exact absurd hrm' (by simp)
        · exact ihb n' hn' hrm'
      · intro p hnp
        exact ihf p (fun n'' h'' => hnp n'' (List.mem_cons_of_mem _ h''))

/-- C4: for a non-negative retention `N` (days), `cleanup_old_backups N`
returns the number of backup folders it removed; it never touches a backup
whose manifest creation date is at most `N` days old (age exactly `N` days
is retained, since removal requires the creation date to be strictly
before `now - N days`); it removes every backup folder whose manifest
creation date is more than `N` days old; and it skips — leaves fully in
place — every folder whose manifest is corrupt, as well as every folder
whose manifest loads but whose creation date is absent or unparsable. -/
theorem cleanup_old_backups_retention
    (w : World) (base : PyPath) (nowTime retentionDays : Int)
    (hret : 0 ≤ retentionDays)
    (hkeys : (w.map Prod.fst).Nodup)
    (hbase : (alGet w base).isSome) :
    ((cleanup_old_backups w base nowTime retentionDays).1 =
      ((listdirNames w base).filter
        (cleanupRemoves w base (nowTime - retentionDays * 86400))).length) ∧
    (∀ name ∈ listdirNames w base, ∀ t : Int,
      manifestDate w base name = some t →
      nowTime - t ≤ retentionDays * 86400 →
      ∀ p : PyPath, (base ++ [name]) <+: p →
        alGet (cleanup_old_backups w base nowTime retentionDays).2 p = alGet w p) ∧
    (∀ name ∈ listdirNames w base, ∀ t : Int,
      isDirAt w (base ++ [name]) = true →
      manifestDate w base name = some t →
      retentionDays * 86400 < nowTime - t →
      alGet (cleanup_old_backups w base nowTime retentionDays).2 (base ++ [name]) =
        none) ∧
    (∀ name ∈ listdirNames w base,
      alGet w (base ++ [name] ++ ["backup_metadata.json"]) =
        some (.manifestFile none) →
      ∀ p : PyPath, (base ++ [name]) <+: p →
        alGet (cleanup_old_backups w base nowTime retentionDays).2 p = alGet w p) ∧
    (∀ name ∈ listdirNames w base, ∀ info : MJson,
      alGet w (base ++ [name] ++ ["backup_metadata.json"]) =
        some (.manifestFile (some info)) →
      manifestDate w base name = none →
      ∀ p : PyPath, (base ++ [name]) <+: p →
        alGet (cleanup_old_backups w base nowTime retentionDays).2 p = alGet w p) := by
  have hbaseF : (alGet w base).isNone = false := by
    rcases Option.isSome_iff_exists.mp hbase with ⟨it, hit⟩
    simp [hit]
  have hrun : cleanup_old_backups w base nowTime retentionDays =
      (listdirNames w base).foldl
        (cleanupStep base (nowTime - retentionDays * 86400)) (0, w) := by
    simp [cleanup_old_backups, hbaseF]
  obtain ⟨hc, ha, hb, hf⟩ := cleanup_foldl_spec w base
    (nowTime - retentionDays * 86400) (listdirNames w base) 0 w
    (listdirNames_nodup w base hkeys) (fun _ _ _ _ => rfl)
  refine ⟨?_, ?_, ?_, ?_, ?_⟩
  · rw [hrun, hc, Nat.zero_add]
  · intro name hmem t hdate hage p hp
    have hrmf : cleanupRemoves w base (nowTime - retentionDays * 86400) name = false := by
      rw [cleanupRemoves]
      cases hdd : isDirAt w (base ++ [name]) with
      | false => simp
      | true =>
        simp only [Bool.not_true, Bool.false_eq_true, if_false]
        rw [manifestDate] at hdate
        cases hmeta : alGet w (base ++ [name] ++ ["backup_metadata.json"]) with
        | none => simp
        | some it =>
          rw [hmeta] at hdate
          cases it with
          | file bs => simp
          | dir => simp
          | manifestFile mf =>
            cases mf with
            | none => simp
            | some info =>
              have hdate2 : (match info.created_date with
                  | some (some t0) => some t0
                  | _ => none) = some t := hdate
              cases hcd : info.created_date with
              | none =>
                rw [hcd] at hdate2
                exact absurd hdate2 (by simp)
              | some cd =>
                cases cd with
                | none =>
                  rw [hcd] at hdate2
                  exact absurd hdate2 (by simp)
                | some u =>
                  rw [hcd] at hdate2
                  have hut : u = t := Option.some.inj hdate2
                  show (match info.created_date with
                      | some (some t0) => decide (t0 < nowTime - retentionDays * 86400)
                      | _ => false) = false
                  rw [hcd]
                  show decide (u < nowTime - retentionDays * 86400) = false
                  simp only [decide_eq_false_iff_not]
                  omega
    rw [hrun]
    exact ha name hmem hrmf p hp
  · intro name hmem t hdir hdate hage
    have hrmt : cleanupRemoves w base (nowTime - retentionDays * 86400) name = true := by
      rw [cleanupRemoves, hdir]
      simp only [Bool.not_true, Bool.false_eq_true, if_false]
      rw [manifestDate] at hdate
      cases hmeta : alGet w (base ++ [name] ++ ["backup_metadata.json"]) with
      | none => exact absurd (hmeta ▸ hdate) (by simp)
      | some it =>
        rw [hmeta] at hdate
        cases it with
        | file bs => exact absurd hdate (by simp)
        | dir => exact absurd hdate (by simp)
        | manifestFile mf =>
          cases mf with
          | none => exact absurd hdate (by simp)
          | some info =>
            have hdate2 : (match info.created_date with
                | some (some t0) => some t0
                | _ => none) = some t := hdate
            cases hcd : info.created_date with
            | none =>
              rw [hcd] at hdate2
              exact absurd hdate2 (by simp)
            | some cd =>
              cases cd with
              | none =>
                rw [hcd] at hdate2
                exact absurd hdate2 (by simp)
              | some u =>
                rw [hcd] at hdate2
                have hut : u = t := Option.some.inj hdate2
                show (match info.created_date with
                    | some (some t0) => decide (t0 < nowTime - retentionDays * 86400)
                    | _ => false) = true
                rw [hcd]
                show decide (u < nowTime - retentionDays * 86400) = true
                simp only [decide_eq_true_eq]
                omega
    rw [hrun]
    exact hb name hmem hrmt
  · intro name hmem hcorrupt p hp
    have hrmf : cleanupRemoves w base (nowTime - retentionDays * 86400) name = false := by
      rw [cleanupRemoves]
      cases hdd : isDirAt w (base ++ [name]) with
      | false => simp
      | true =>
        simp only [Bool.not_true, Bool.false_eq_true, if_false]
        rw [hcorrupt]
    rw [hrun]
    exact ha name hmem hrmf p hp
  · intro name hmem info hmeta hdate p hp
    have hrmf : cleanupRemoves w base (nowTime - retentionDays * 86400) name = false := by
      rw [cleanupRemoves]
      cases hdd : isDirAt w (base ++ [name]) with
      | false => simp
      | true =>
        simp only [Bool.not_true, Bool.false_eq_true, if_false]
        rw [manifestDate, hmeta] at hdate
        have hdate2 : (match info.created_date with
            | some (some t0) => some t0
            | _ => none) = none := hdate
        rw [hmeta]
        cases hcd : info.created_date with
        | none => simp [hcd]
        | some cd =>
          cases cd with
          | none => simp [hcd]
          | some u =>
            rw [hcd] at hdate2
            exact absurd hdate2 (by simp)
    rw [hrun]
    exact ha name hmem hrmf p hp

/-- Witness for C4 on `c4World`: the count matches the removal predicate,
the fresh backup, the corrupt-manifest folder and the unparsable-date
folder survive, and the 11-day-old backup is removed. -/
theorem cleanup_old_backups_retention_witness :
    ((cleanup_old_backups c4World ["bk"] 950400 7).1 =
      ((listdirNames c4World ["bk"]).filter
        (cleanupRemoves c4World ["bk"] (950400 - 7 * 86400))).length) ∧
    (alGet (cleanup_old_backups c4World ["bk"] 950400 7).2 (["bk"] ++ ["fresh"]) =
      alGet c4World (["bk"] ++ ["fresh"])) ∧
    (alGet (cleanup_old_backups c4World ["bk"] 950400 7).2 (["bk"] ++ ["old"]) =
      none) ∧
    (alGet (cleanup_old_backups c4World ["bk"] 950400 7).2 (["bk"] ++ ["bad"]) =
      alGet c4World (["bk"] ++ ["bad"])) ∧
    (alGet (cleanup_old_backups c4World ["bk"] 950400 7).2 (["bk"] ++ ["nodate"]) =
      alGet c4World (["bk"] ++ ["nodate"])) := by
  have h := cleanup_old_backups_retention c4World ["bk"] 950400 7
    (by decide) (by decide) (by decide)
  exact ⟨h.1,
    h.2.1 "fresh" (by decide) 950400 rfl (by decide) _ (List.prefix_refl _),
    h.2.2.1 "old" (by decide) 0 rfl rfl (by decide),
    h.2.2.2.1 "bad" (by decide) rfl _ (List.prefix_refl _),
    h.2.2.2.2 "nodate" (by decide)
      { source_path := some ["d", "t"], backup_path := some ["bk", "nodate", "t"],
        backup_type := "m", created_date := some none }
      rfl rfl _ (List.prefix_refl _)⟩

/-- The write loop succeeds exactly when every path in the id table exists
and is writable in the starting registry. -/
theorem applyNewIds_ok_iff (reg : Registry)
    (ids : List (String × List (String × String))) :
    (applyNewIds reg ids).1 = true ↔
      ∀ pv ∈ ids, Option.map RegKey.writeOk (alGet reg pv.1) = some true := by
  induction ids generalizing reg with
  | nil => simp [applyNewIds]
  | cons hd rest ih =>
    obtain ⟨path, vals⟩ := hd
    cases hk : alGet reg path with
    | none => simp [applyNewIds, hk]
    | some k =>
      cases hw : k.writeOk with
      | false => simp [applyNewIds, hk, hw]
      | true =>
        have htrans : ∀ p : String,
            Option.map RegKey.writeOk
              (alGet (alSet reg path { k with values := regSetValues vals k.values }) p) =
            Option.map RegKey.writeOk (alGet reg p) := by
          intro p
          by_cases hp : p = path
          · subst hp
            rw [alGet_alSet_self, hk]
            rfl
          · rw [alGet_alSet_ne _ _ _ _ hp]
        have hred : applyNewIds reg ((path, vals) :: rest) =
            applyNewIds (alSet reg path { k with values := regSetValues vals k.values })
              rest := by
          simp [applyNewIds, hk, hw]
        rw [hred, ih]
        constructor
        · intro h pv hpv
          rcases List.mem_cons.mp hpv with rfl | hpv
          · simp [hk, hw]
          · rw [← htrans pv.1]
            exact h pv hpv
        · intro h pv hpv
          rw [htrans pv.1]
          exact h pv (List.mem_cons_of_mem _ hpv)

/-- C7: `modify_device_ids` serializes the *pre-write* registry values into
the backup before any write happens; it raises exactly when some path in
the id table cannot be written (so it never reports success after a
partial write: success means every path was written); on every failure it
attempts the restore of the just-created backup before raising, and on
success no restore is attempted and the final registry is the fully
written one. -/
theorem modify_device_ids_backup_rollback (reg : Registry)
    (newIds : List (String × List (String × String))) :
    ((modify_device_ids reg newIds).backupData = read_registry_values reg) ∧
    ((modify_device_ids reg newIds).raised = true →
      (modify_device_ids reg newIds).restoreAttempted = true) ∧
    ((modify_device_ids reg newIds).raised = false →
      (modify_device_ids reg newIds).restoreAttempted = false ∧
      (modify_device_ids reg newIds).registry = (applyNewIds reg newIds).2) ∧
    ((modify_device_ids reg newIds).raised = false ↔
      ∀ pv ∈ newIds, Option.map RegKey.writeOk (alGet reg pv.1) = some true) := by
  rw [← applyNewIds_ok_iff]
  cases happ : (applyNewIds reg newIds).1 with
  | true => simp [modify_device_ids, happ]
  | false => simp [modify_device_ids, happ]

/-- Witness for C7: a writable one-key registry (success: no restore, all
writes applied) and the same registry with the key locked (failure path:
the restore is attempted). -/
theorem modify_device_ids_backup_rollback_witness :
    ((modify_device_ids
        [("SOFTWARE\\Microsoft\\Cryptography",
          RegKey.mk true true [("MachineGuid", "AAA")])]
        [("SOFTWARE\\Microsoft\\Cryptography", [("MachineGuid", "BBB")])]
      ).restoreAttempted = false ∧
     (modify_device_ids
        [("SOFTWARE\\Microsoft\\Cryptography",
          RegKey.mk true true [("MachineGuid", "AAA")])]
        [("SOFTWARE\\Microsoft\\Cryptography", [("MachineGuid", "BBB")])]
      ).registry =
        (applyNewIds
          [("SOFTWARE\\Microsoft\\Cryptography",
            RegKey.mk true true [("MachineGuid", "AAA")])]
          [("SOFTWARE\\Microsoft\\Cryptography", [("MachineGuid", "BBB")])]).2) ∧
    (modify_device_ids
        [("SOFTWARE\\Microsoft\\Cryptography",
          RegKey.mk true false [("MachineGuid", "AAA")])]
        [("SOFTWARE\\Microsoft\\Cryptography", [("MachineGuid", "BBB")])]
      ).restoreAttempted = true :=
  ⟨(modify_device_ids_backup_rollback
      [("SOFTWARE\\Microsoft\\Cryptography",
        RegKey.mk true true [("MachineGuid", "AAA")])]
      [("SOFTWARE\\Microsoft\\Cryptography", [("MachineGuid", "BBB")])]).2.2.1 rfl,
   (modify_device_ids_backup_rollback
      [("SOFTWARE\\Microsoft\\Cryptography",
        RegKey.mk true false [("MachineGuid", "AAA")])]
      [("SOFTWARE\\Microsoft\\Cryptography", [("MachineGuid", "BBB")])]).2.1 rfl⟩

/-! ## C10: the entry points never propagate exceptions -/

/-- C10: both entry points are total and fail closed instead of raising.
`safe_file_modify` returns `False` with no on-disk change on a nonexistent
or unwritable path, and returns `False` (after attempting to clean up the
temporary file, which lives outside the modelled tree) whenever the
replacement table raises; `create_backup` returns `None` with no change
when the source does not exist, and an id otherwise — neither ever
propagates an exception, every internal failure being caught by the
enclosing `try`/`except`. -/
theorem entry_points_total :
    (∀ (fs : FileSys) (filePath : PyPath) (rules : List PatchRule)
        (backupDir : PyPath) (sfx ts : String),
      alGet fs filePath = none →
      safeFileModify fs filePath rules backupDir sfx ts = (false, fs, [])) ∧
    (∀ (fs : FileSys) (filePath : PyPath) (rules : List PatchRule)
        (backupDir : PyPath) (sfx ts : String) (file : MFile),
      alGet fs filePath = some file → file.writable = false →
      safeFileModify fs filePath rules backupDir sfx ts = (false, fs, [])) ∧
    (∀ (fs : FileSys) (filePath : PyPath) (rules : List PatchRule)
        (backupDir : PyPath) (sfx ts : String) (file : MFile),
      alGet fs filePath = some file →
      applyRules rules (decodeUtf8Ignore file.bytes) = .error () →
      (safeFileModify fs filePath rules backupDir sfx ts).1 = false) ∧
    (∀ (w : World) (base : PyPath) (nowStr : String) (nowTime : Int)
        (sourcePath : PyPath) (backupType : String),
      alGet w sourcePath = none →
      create_backup w base nowStr nowTime sourcePath backupType = (none, w)) ∧
    (∀ (w : World) (base : PyPath) (nowStr : String) (nowTime : Int)
        (sourcePath : PyPath) (backupType : String),
      (alGet w sourcePath).isSome →
      ∃ bid, (create_backup w base nowStr nowTime sourcePath backupType).1 =
        some bid) := by
  refine ⟨?_, ?_, ?_, ?_, ?_⟩
  · intro fs filePath rules backupDir sfx ts h
    simp [safeFileModify, h]
  · intro fs filePath rules backupDir sfx ts file hget hw
    simp [safeFileModify, hget, hw]
  · intro fs filePath rules backupDir sfx ts file hget happ
    cases hw : file.writable with
    | false => simp [safeFileModify, hget, hw]
    | true => simp [safeFileModify, hget, hw, happ]
  · intro w base nowStr nowTime sourcePath backupType h
    simp [create_backup, h]
  · intro w base nowStr nowTime sourcePath backupType h
    have hF : (alGet w sourcePath).isNone = false := by
      rcases Option.isSome_iff_exists.mp h with ⟨it, hit⟩
      simp [hit]
    exact ⟨backupType ++ "_" ++ pbasename sourcePath ++ "_" ++ nowStr,
      by simp [create_backup, hF]⟩

/-- Witness for C10: a missing target path makes `safe_file_modify` return
`False` over the unchanged (empty) tree, and a missing source makes
`create_backup` return `None` over the unchanged (empty) world. -/
theorem entry_points_total_witness :
    safeFileModify [] ["t"] [] ["b"] "" "20240101_000000" = (false, [], []) ∧
    create_backup [] ["bk"] "20240101_000000" 0 ["s"] "m" = (none, []) :=
  ⟨entry_points_total.1 [] ["t"] [] ["b"] "" "20240101_000000" rfl,
   entry_points_total.2.2.2.1 [] ["bk"] "20240101_000000" 0 ["s"] "m" rfl⟩
